import Mathlib

/-!
Verification of the Compass bulk-import module
(`src/packages/compass-import-export/src/modules/import.ts`).

The Redux state, actions and reducer of the import module are translated
into plain Lean definitions; the thunks (`startImport`, `loadTypes`,
`loadCSVPreviewDocs`, the error/progress callbacks) are translated as pure
functions from their inputs to the values they compute and the traces of
effects (dispatches, aborts, toasts) they perform.  Machine `AbortController`
objects are identified by `Nat` handles; an abort is an explicit effect in a
trace.  Parts of the repository that the import module calls but whose code
is not in the repository snapshot (the CSV header normalizer, the importer
internals) are modelled from the specification and are marked as such.
-/

namespace CompassImport

/-- The `PROCESS_STATUS` constants (`constants/process-status`, referenced by
`import.ts` as `PROCESS_STATUS.UNSPECIFIED` / `STARTED` / `CANCELED` /
`COMPLETED` / `FAILED`). -/
inductive ProcessStatus where
  | UNSPECIFIED
  | STARTED
  | CANCELED
  | COMPLETED
  | FAILED
deriving DecidableEq, Repr

/-- A JS `Error` value, reduced to its message (the only part `import.ts`
reads or writes). -/
structure Err where
  message : String
deriving DecidableEq, Repr

/-- `FieldFromCSV` from `import.ts`: the per-column descriptor shown in the
preview.  `CSVParsableFieldType` and `CSVField` are modelled as `String`
(the reducer only moves these values around).  `FieldFromJSON` never enters
`state.fields` in this module (the only action writing `fields` with a
non-empty payload is `SET_PREVIEW`, always dispatched from `loadTypes` with
`FieldFromCSV[]`), so `state.fields` is a list of `FieldFromCSV`. -/
structure FieldFromCSV where
  isArray : Bool
  path : String
  checked : Bool
  type : String
  result : Option String
deriving DecidableEq, Repr

/-- The actions of the import reducer, one constructor per action type
string, carrying the payload fields the reducer reads.  `AbortController`
values are identified by `Nat` handles. -/
inductive Action where
  | FILE_SELECTED (delimiter : Option String) (fileName : String)
      (fileType : String) (fileStats : Option Nat) (fileIsMultilineJSON : Bool)
  | FILE_TYPE_SELECTED (fileType : String)
  | SET_STOP_ON_ERRORS (stopOnErrors : Bool)
  | SET_IGNORE_BLANKS (ignoreBlanks : Bool)
  | SET_DELIMITER (delimiter : String)
  | SET_PREVIEW (fields : List FieldFromCSV) (values : List (List String))
  | TOGGLE_INCLUDE_FIELD (path : String)
  | SET_FIELD_TYPE (path : String) (bsonType : String)
  | FILE_SELECT_ERROR (error : Err)
  | FAILED (error : Err)
  | STARTED (abortController : Nat) (errorLogFilePath : String)
  | FINISHED (aborted : Bool) (errors : List Err)
  | OPEN
  | CLOSE
  | OPEN_IN_PROGRESS_MESSAGE
  | CLOSE_IN_PROGRESS_MESSAGE
  | ANALYZE_STARTED (abortController : Nat) (analyzeBytesTotal : Nat)
  | ANALYZE_FINISHED (result : String)
  | ANALYZE_FAILED (error : Err)
  | ANALYZE_CANCELLED
  | ANALYZE_PROGRESS (analyzeBytesProcessed : Nat)
  | DATA_SERVICE_DISCONNECTED
deriving DecidableEq, Repr

/-- The `State` type of the import module.  `fs.Stats` is reduced to the
byte size (the only part read), `AnalyzeCSVFieldsResult` to a `String`
placeholder, abort controllers to `Nat` handles. -/
structure State where
  isOpen : Bool
  isInProgressMessageOpen : Bool
  errors : List Err
  fileType : String
  fileName : String
  errorLogFilePath : String
  fileIsMultilineJSON : Bool
  useHeaderLines : Bool
  status : ProcessStatus
  fileStats : Option Nat
  analyzeBytesProcessed : Nat
  analyzeBytesTotal : Nat
  delimiter : Option String
  stopOnErrors : Bool
  ignoreBlanks : Bool
  fields : List FieldFromCSV
  values : List (List String)
  previewLoaded : Bool
  exclude : List String
  transform : List (String × String)
  abortController : Option Nat
  analyzeAbortController : Option Nat
  analyzeResult : Option String
  analyzeStatus : ProcessStatus
  analyzeError : Option Err
deriving DecidableEq, Repr

/-- `INITIAL_STATE` from `import.ts`. -/
def INITIAL_STATE : State where
  isOpen := false
  isInProgressMessageOpen := false
  errors := []
  fileName := ""
  errorLogFilePath := ""
  fileIsMultilineJSON := false
  useHeaderLines := true
  status := .UNSPECIFIED
  fileStats := none
  analyzeBytesProcessed := 0
  analyzeBytesTotal := 0
  delimiter := some ","
  stopOnErrors := false
  ignoreBlanks := true
  fields := []
  values := []
  previewLoaded := false
  exclude := []
  transform := []
  fileType := ""
  abortController := none
  analyzeAbortController := none
  analyzeResult := none
  analyzeStatus := .UNSPECIFIED
  analyzeError := none

/-- The import reducer (`reducer` in `import.ts`), case by case in source
order.  The JS in-place mutation of field objects inside `map` is the same
as the functional update here.  Note that in the `TOGGLE_INCLUDE_FIELD`
case the source sets `transform` from `csvFields(newState.fields)` without
filtering on `checked` (unlike the `SET_PREVIEW` and `SET_FIELD_TYPE`
cases); `csvFields` keeps the fields with a defined `type`, which is every
element of `state.fields` here. -/
def reducer (state : State) (action : Action) : State :=
  match action with
  | .FILE_SELECTED delimiter fileName fileType fileStats fileIsMultilineJSON =>
    { state with
      delimiter, fileName, fileType, fileStats, fileIsMultilineJSON,
      status := .UNSPECIFIED, errors := [],
      abortController := none, analyzeAbortController := none, fields := [] }
  | .FILE_TYPE_SELECTED fileType => { state with fileType }
  | .SET_STOP_ON_ERRORS stopOnErrors => { state with stopOnErrors }
  | .SET_IGNORE_BLANKS ignoreBlanks => { state with ignoreBlanks }
  | .SET_DELIMITER delimiter => { state with delimiter := some delimiter }
  | .SET_PREVIEW fields values =>
    { state with
      values, fields, previewLoaded := true, exclude := [],
      transform := (fields.filter (fun f => f.checked)).map (fun f => (f.path, f.type)) }
  | .TOGGLE_INCLUDE_FIELD path =>
    let fields := state.fields.map (fun f =>
      if f.path = path then { f with checked := !f.checked } else f)
    { state with
      fields,
      transform := fields.map (fun f => (f.path, f.type)),
      exclude := (fields.filter (fun f => !f.checked)).map (fun f => f.path) }
  | .SET_FIELD_TYPE path bsonType =>
    let fields := state.fields.map (fun f =>
      if f.path = path then { f with checked := true, type := bsonType } else f)
    { state with
      fields,
      transform := (fields.filter (fun f => f.checked)).map (fun f => (f.path, f.type)),
      exclude := (fields.filter (fun f => !f.checked)).map (fun f => f.path) }
  | .FILE_SELECT_ERROR error => { state with errors := [error] }
  | .FAILED error =>
    { state with errors := [error], status := .FAILED, abortController := none }
  | .STARTED abortController errorLogFilePath =>
    { state with
      isOpen := false, errors := [], status := .STARTED,
      abortController := some abortController, errorLogFilePath }
  | .FINISHED aborted errors =>
    { state with
      status := if aborted then .CANCELED else .COMPLETED,
      errors, abortController := none }
  | .OPEN => { INITIAL_STATE with isOpen := true }
  | .CLOSE => { state with isOpen := false }
  | .OPEN_IN_PROGRESS_MESSAGE => { state with isInProgressMessageOpen := true }
  | .CLOSE_IN_PROGRESS_MESSAGE => { state with isInProgressMessageOpen := false }
  | .ANALYZE_STARTED abortController analyzeBytesTotal =>
    { state with
      analyzeStatus := .STARTED, analyzeAbortController := some abortController,
      analyzeError := none, analyzeBytesProcessed := 0, analyzeBytesTotal }
  | .ANALYZE_FINISHED result =>
    { state with
      analyzeStatus := .COMPLETED, analyzeAbortController := none,
      analyzeResult := some result, analyzeError := none }
  | .ANALYZE_FAILED error =>
    { state with
      analyzeStatus := .FAILED, analyzeAbortController := none,
      analyzeError := some error }
  | .ANALYZE_CANCELLED =>
    { state with analyzeAbortController := none, analyzeError := none }
  | .ANALYZE_PROGRESS analyzeBytesProcessed => { state with analyzeBytesProcessed }
  | .DATA_SERVICE_DISCONNECTED =>
    { state with
      analyzeAbortController := none, abortController := none, isOpen := false }

/-- Dispatching a list of actions in order. -/
def applyActions (s : State) (actions : List Action) : State :=
  actions.foldl reducer s

/-- The side effects the reducer performs on the abort-controller objects it
holds: only the `DATA_SERVICE_DISCONNECTED` case calls
`state.abortController?.abort()` and `state.analyzeAbortController?.abort()`
(optional chaining: no effect for an absent controller). -/
inductive Effect where
  | abortCtl (id : Nat)
deriving DecidableEq, Repr

/-- The abort effects of one reducer step, in source order (import
controller first, then the analyzer controller). -/
def reducerEffects (state : State) (action : Action) : List Effect :=
  match action with
  | .DATA_SERVICE_DISCONNECTED =>
    state.abortController.toList.map Effect.abortCtl ++
      state.analyzeAbortController.toList.map Effect.abortCtl
  | _ => []

/-- `isTerminal` for the session status: the spec's terminal values
completed / canceled / failed. -/
def ProcessStatus.isTerminal : ProcessStatus → Bool
  | .COMPLETED | .CANCELED | .FAILED => true
  | _ => false

/-- The reducer cases that write `status` (every other case leaves it
untouched): `FILE_SELECTED`, `FAILED`, `STARTED`, `FINISHED`, `OPEN`. -/
def Action.writesStatus : Action → Bool
  | .FILE_SELECTED .. | .FAILED _ | .STARTED .. | .FINISHED .. | .OPEN => true
  | _ => false

/-! ### `startImport`: setup phase, importer invocation, terminal phase -/

/-- The outcome of the setup phase of `startImport` (creating the
error-log file).  The source wraps `getErrorLogPath` / `createWriteStream`
in a `try`: on failure it rewrites the error message, pushes the error onto
the run's in-memory `errors` list, and *continues* (there is no early
return); the importer call further down runs unconditionally.  On success
the write stream is created only when the returned path is truthy
(non-empty). -/
structure SetupOutcome where
  errors : List Err
  errorLogFilePath : String
  hasErrorLogStream : Bool
  importerInvoked : Bool
deriving DecidableEq, Repr

/-- The setup phase of `startImport` (`import.ts` lines 244-257 plus the
fact that control flow then reaches the `importCSV`/`importJSON` call at
lines 321-347 in both cases).  `logPathResult` is the result of
`await getErrorLogPath(fileName)`. -/
def startImportSetup (logPathResult : Except Err String) : SetupOutcome :=
  match logPathResult with
  | .ok p =>
    { errors := [], errorLogFilePath := p,
      hasErrorLogStream := !(p == ""), importerInvoked := true }
  | .error e =>
    { errors := [⟨"unable to create import error log file: " ++ e.message⟩],
      errorLogFilePath := "", hasErrorLogStream := false, importerInvoked := true }

/-- `FILE_TYPES.CSV` (`constants/file-types`): the string the source
compares `fileType` against (also compared literally as `'csv'` at
the importer dispatch). -/
def FILE_TYPES_CSV : String := "csv"

/-- Line 231 of `import.ts`:
`const ignoreBlanks = ignoreBlanks_ && fileType === FILE_TYPES.CSV`. -/
def effectiveIgnoreBlanks (ignoreBlanks : Bool) (fileType : String) : Bool :=
  ignoreBlanks && (fileType == FILE_TYPES_CSV)

/-- One assignment `fields[name] = type` on a JS `Record`, modelled as an
insertion-ordered association list: an existing key is overwritten in
place, a new key is appended. -/
def recordSet (r : List (String × String)) (k v : String) : List (String × String) :=
  if r.any (fun q => q.1 == k) then
    r.map (fun q => if q.1 == k then (k, v) else q)
  else r ++ [(k, v)]

/-- Lines 233-239 of `import.ts`: the `fields` record handed to
`importCSV`, built by iterating `transform` and skipping names in
`exclude`. -/
def buildFields (transform : List (String × String)) (exclude : List String) :
    List (String × String) :=
  transform.foldl (fun r nt => if nt.1 ∈ exclude then r else recordSet r nt.1 nt.2) []

/-- The projection of `state.fields` the importer is meant to receive:
checked fields mapped to their current types. -/
def checkedFieldPairs (fields : List FieldFromCSV) : List (String × String) :=
  (fields.filter (fun f => f.checked)).map (fun f => (f.path, f.type))

/-- The arguments `startImport` passes to `importCSV` that come from the
session state (stream/service/callback objects elided). -/
structure ImportCSVCall where
  delimiter : Option String
  fields : List (String × String)
  stopOnErrors : Bool
  ignoreEmptyStrings : Bool
deriving DecidableEq, Repr

/-- The arguments `startImport` passes to `importJSON` that come from the
session state.  The source passes no ignore-blank/empty-string parameter
in this branch. -/
structure ImportJSONCall where
  stopOnErrors : Bool
  jsonVariant : String
deriving DecidableEq, Repr

/-- The slice of the session state `startImport` destructures. -/
structure StartImportConfig where
  fileName : String
  fileType : String
  fileIsMultilineJSON : Bool
  delimiter : Option String
  ignoreBlanks : Bool
  stopOnErrors : Bool
  exclude : List String
  transform : List (String × String)
deriving DecidableEq, Repr

/-- Lines 321-347 of `import.ts`: which importer is invoked and with which
state-derived arguments. -/
def importInvocation (cfg : StartImportConfig) : ImportCSVCall ⊕ ImportJSONCall :=
  if cfg.fileType == "csv" then
    .inl { delimiter := cfg.delimiter,
           fields := buildFields cfg.transform cfg.exclude,
           stopOnErrors := cfg.stopOnErrors,
           ignoreEmptyStrings := effectiveIgnoreBlanks cfg.ignoreBlanks cfg.fileType }
  else
    .inr { stopOnErrors := cfg.stopOnErrors,
           jsonVariant := if cfg.fileIsMultilineJSON then "jsonl" else "json" }

/-- The `errorCallback` closure of `startImport`: push the incoming error
onto the in-memory list only while fewer than 5 are stored. -/
def errorCallbackStep (errors : List Err) (e : Err) : List Err :=
  if errors.length < 5 then errors ++ [e] else errors

/-- The in-memory error list after a sequence of `errorCallback`
invocations, starting from `init` (the list may already hold the setup
error pushed at lines 252-257). -/
def runErrorCallbacks (init : List Err) (es : List Err) : List Err :=
  es.foldl errorCallbackStep init

/-- Modelled from the spec: the error log written through the `output`
write stream by `importCSV`/`importJSON` (code not under `src/`; the
`errorCallback` comment in `import.ts` states "The log file tracks all of
them").  Every reported error is recorded. -/
def importErrorLog (es : List Err) : List Err := es

/-! ### The lodash throttle on the progress callback

`_.throttle(fn, 1000)` with default options: a call outside the wait
window invokes `fn` immediately (leading edge) and opens the window; calls
inside the window only record the latest arguments; `.flush()` invokes
`fn` with the recorded pending arguments, if any.  Timer expiry (which
would also deliver the trailing call) is real time and is not modelled;
the model therefore never closes the window, which only makes the flush
guarantee harder, not easier.  Arguments are the
`(docsWritten, bytesProcessed)` pair. -/

structure ThrottleState where
  pending : Option (Nat × Nat)
  active : Bool
deriving DecidableEq, Repr

def throttleInit : ThrottleState := { pending := none, active := false }

/-- One invocation of the throttled callback: returns the new throttle
state and the deliveries performed. -/
def throttleCall (s : ThrottleState) (a : Nat × Nat) : ThrottleState × List (Nat × Nat) :=
  if s.active then ({ s with pending := some a }, [])
  else ({ pending := none, active := true }, [a])

/-- `.flush()`: deliver the pending trailing call, if any. -/
def throttleFlushOut (s : ThrottleState) : ThrottleState × List (Nat × Nat) :=
  match s.pending with
  | some a => ({ s with pending := none }, [a])
  | none => (s, [])

/-- Run a sequence of throttled calls, collecting deliveries. -/
def runThrottle (s : ThrottleState) : List (Nat × Nat) → ThrottleState × List (Nat × Nat)
  | [] => (s, [])
  | a :: rest =>
    let r1 := throttleCall s a
    let r2 := runThrottle r1.1 rest
    (r2.1, r1.2 ++ r2.2)

/-- All progress deliveries of a run whose thunk flushes the throttle at
the end (the `progressCallback.flush()` after `await promise`). -/
def deliveredWithFlush (calls : List (Nat × Nat)) : List (Nat × Nat) :=
  let r := runThrottle throttleInit calls
  r.2 ++ (throttleFlushOut r.1).2

/-! ### The terminal phase of `startImport` -/

/-- The result the import promise resolves with. -/
structure ImportResult where
  aborted : Bool
  docsWritten : Nat
  docsProcessed : Nat
deriving DecidableEq, Repr

/-- How the `await promise` of `startImport` ends: resolution with an
`ImportResult`, or rejection with an error. -/
inductive ImportOutcome where
  | success (result : ImportResult)
  | failure (error : Err)
deriving DecidableEq, Repr

/-- Modelled from the spec: `importCSV`/`importJSON` (code not under
`src/`) treat cancellation as a normal terminal outcome, never as a thrown
error - aborting mid-run makes the import promise *resolve* with
`aborted := true` and the partial counts. -/
def cancelledImportOutcome (docsWritten docsProcessed : Nat) : ImportOutcome :=
  .success { aborted := true, docsWritten, docsProcessed }

/-- The externally visible steps of the terminal phase of `startImport`. -/
inductive Event where
  | flushProgress
  | closeErrorLog
  | toastFailed
  | toastCancelled
  | toastCompletedWithErrors
  | toastCompleted
  | dispatchFailed (error : Err)
  | dispatchFinished (aborted : Bool) (errors : List Err)
  | emitImportFinished
deriving DecidableEq, Repr

/-- `import.ts` lines 349-443, as the ordered trace of effects after
the import promise settles.  On rejection: the `catch` block shows the failed
toast and dispatches `onFailed` (the throttle is *not* flushed), then the
`finally` closes the log stream.  On resolution: the `try` body flushes the
throttle, the `finally` closes the log stream, then the toast matching
`result.aborted` / the error count is shown, `onFinished` is dispatched,
and `import-finished` is emitted when the data service is unchanged. -/
def startImportTerminal (outcome : ImportOutcome) (errors : List Err)
    (sameDataService : Bool) : List Event :=
  match outcome with
  | .failure e => [.toastFailed, .dispatchFailed e, .closeErrorLog]
  | .success r =>
    [.flushProgress, .closeErrorLog] ++
      (if r.aborted then [.toastCancelled]
       else if errors.length > 0 then [.toastCompletedWithErrors]
       else [.toastCompleted]) ++
      [.dispatchFinished r.aborted errors] ++
      (if sameDataService then [.emitImportFinished] else [])

/-- Whether a trace contains the throttle flush. -/
def containsFlush (tr : List Event) : Bool :=
  tr.any (fun e => match e with | .flushProgress => true | _ => false)

/-- Whether a trace contains a `FAILED` dispatch. -/
def containsFailureDispatch (tr : List Event) : Bool :=
  tr.any (fun e => match e with | .dispatchFailed _ => true | _ => false)

/-! ### `loadTypes`: single-flight analyzer discipline -/

/-- The externally visible steps of the opening of `loadTypes` up to (and
including) the `ANALYZE_STARTED` dispatch. -/
inductive AnalyzeEvent where
  | abortCtl (id : Nat)
  | dispatchCancelled
  | dispatchStarted (id : Nat)
deriving DecidableEq, Repr

/-- `loadTypes` (`import.ts` lines 503-528) together with the
`skipCSVAnalyze` thunk it dispatches: when an `analyzeAbortController` is
in flight, `loadTypes` aborts it, then `skipCSVAnalyze` (reading the
still-unchanged state) aborts the same controller again and dispatches
`ANALYZE_CANCELLED`; only then does `loadTypes` create a fresh controller
and dispatch `ANALYZE_STARTED`.  All of this is synchronous dispatching:
the cancellation acknowledgment (`ANALYZE_CANCELLED`) is in the trace
before `ANALYZE_STARTED`. -/
def loadTypesStartTrace (prior : Option Nat) (fresh : Nat) : List AnalyzeEvent :=
  (match prior with
   | some id => [.abortCtl id, .abortCtl id, .dispatchCancelled]
   | none => []) ++ [.dispatchStarted fresh]

/-- The reducer actions `loadTypes` dispatches up to `ANALYZE_STARTED`. -/
def loadTypesDispatches (prior : Option Nat) (fresh : Nat) (total : Nat) : List Action :=
  (match prior with
   | some _ => [Action.ANALYZE_CANCELLED]
   | none => []) ++ [Action.ANALYZE_STARTED fresh total]

/-! ### `loadCSVPreviewDocs`: CSV header grouping and preview cells -/

/-- Consume one or more decimal digits followed by a closing bracket;
`afterDigits` handles the characters after the first digit. -/
def afterDigits : List Char → Option (List Char)
  | [] => none
  | c :: rest =>
    if c = ']' then some rest
    else if c.isDigit then afterDigits rest
    else none

/-- Given the characters following an opening bracket, match `digits+ ']'`
and return the remainder, or `none`. -/
def matchIndex : List Char → Option (List Char)
  | [] => none
  | c :: rest => if c.isDigit then afterDigits rest else none

/-- One step of the normalizer, applied to a character in front of an
already-normalized suffix. -/
def normStep (c : Char) (acc : List Char) : List Char :=
  if c = '[' then
    match matchIndex acc with
    | some rem => '[' :: ']' :: rem
    | none => c :: acc
  else c :: acc

/-- Modelled from the spec: `csvHeaderNameToFieldName` (`csv/csv-utils`,
code not under `src/`) performs the array-grouping normalization - every
bracketed numeric index in a CSV header name is replaced by the array
marker, e.g. `tags[0]`, `tags[1]` become `tags[]` (and `foo[2].bar`
becomes `foo[].bar`). -/
def normalizeChars (l : List Char) : List Char := l.foldr normStep []

/-- String-level wrapper of the modelled `csvHeaderNameToFieldName`. -/
def csvHeaderNameToFieldName (name : String) : String :=
  ⟨normalizeChars name.data⟩

/-- `uniqueName.endsWith('[]')`, on the character list (for a
kernel-computable definition). -/
def endsWithArrayMarker (n : String) : Bool :=
  match n.data.reverse with
  | ']' :: '[' :: _ => true
  | _ => false

/-- The field descriptor `loadCSVPreviewDocs` pushes for the first column
of each normalized name. -/
def mkField (n : String) : FieldFromCSV :=
  { isArray := endsWithArrayMarker n, path := n, checked := true,
    type := "mixed", result := none }

/-- One iteration of the grouping loop of `loadCSVPreviewDocs`
(`import.ts` lines 601-621): `entry` is `(index, name)` from
`result.headerFields.entries()`.  An existing `fieldMap` group gets the
index appended; a new normalized name opens a group and pushes a field. -/
def groupStep (acc : List (String × List Nat) × List FieldFromCSV)
    (entry : Nat × String) : List (String × List Nat) × List FieldFromCSV :=
  let uniqueName := csvHeaderNameToFieldName entry.2
  if acc.1.any (fun q => q.1 == uniqueName) then
    (acc.1.map (fun q => if q.1 == uniqueName then (q.1, q.2 ++ [entry.1]) else q),
     acc.2)
  else
    (acc.1 ++ [(uniqueName, [entry.1])], acc.2 ++ [mkField uniqueName])

/-- The grouping pass over the header row: the `fieldMap` record (in key
insertion order) and the `fields` list. -/
def groupFields (headers : List String) : List (String × List Nat) × List FieldFromCSV :=
  headers.enum.foldl groupStep ([], [])

/-- `fieldMap[field.path]` lookup. -/
def lookupIndexes (fieldMap : List (String × List Nat)) (p : String) : List Nat :=
  match fieldMap.find? (fun q => q.1 == p) with
  | some q => q.2
  | none => []

/-- Escaping `JSON.stringify` applies to the sampled cell strings (quote
and backslash; control-character escapes do not arise in the claims and
are elided). -/
def jsonEscape (s : String) : String :=
  ⟨s.data.foldr (fun c acc =>
    if c = '\"' then '\\' :: '\"' :: acc
    else if c = '\\' then '\\' :: '\\' :: acc
    else c :: acc) []⟩

/-- `JSON.stringify(cellValues, null, 2)` for a list of strings. -/
def jsonStringifyArray (vs : List String) : String :=
  match vs with
  | [] => "[]"
  | _ =>
    "[\n  " ++ String.intercalate ",\n  " (vs.map (fun v => "\"" ++ jsonEscape v ++ "\"")) ++ "\n]"

/-- The per-row transformation of `loadCSVPreviewDocs` (`import.ts` lines
623-647): one preview cell per field.  A group of a single column uses the
raw cell; a merged group joins its non-empty cells (`value.length > 0`),
as a pretty-printed JSON array for `foo[]` fields and as a comma-joined
list otherwise.  `row[i]` is modelled as `row.getD i ""` (preview rows are
rectangular). -/
def transformRow (fieldMap : List (String × List Nat)) (fields : List FieldFromCSV)
    (row : List String) : List String :=
  fields.map (fun field =>
    let idxs := lookupIndexes fieldMap field.path
    if idxs.length = 1 then row.getD (idxs.headD 0) ""
    else
      let cellValues := (idxs.map (fun i => row.getD i "")).filter (fun v => v.length > 0)
      if field.isArray then jsonStringifyArray cellValues
      else String.intercalate ", " cellValues)

/-- The dedup step realized by the grouping loop on normalized names:
first occurrence kept, in order. -/
def dedupStep (acc : List String) (n : String) : List String :=
  if n ∈ acc then acc else acc ++ [n]

/-- The normalized header names, first occurrences in order. -/
def firstOccurrences (names : List String) : List String :=
  names.foldl dedupStep []

/-! ## Helper lemmas -/

/-- The in-memory error list is the accumulator extended by a prefix of
the incoming errors: exactly `5 - init.length` of them get stored. -/
theorem runErrorCallbacks_eq (es : List Err) (init : List Err) :
    runErrorCallbacks init es = init ++ es.take (5 - init.length) := by
  induction es generalizing init with
  | nil => simp [runErrorCallbacks]
  | cons e rest ih =>
    by_cases h : init.length < 5
    · have hstep : runErrorCallbacks init (e :: rest)
          = runErrorCallbacks (init ++ [e]) rest := by
        simp [runErrorCallbacks, errorCallbackStep, h]
      rw [hstep, ih]
      have h5 : 5 - init.length = (5 - (init.length + 1)) + 1 := by omega
      rw [h5, List.take_succ_cons]
      simp
    · have hstep : runErrorCallbacks init (e :: rest)
          = runErrorCallbacks init rest := by
        simp [runErrorCallbacks, errorCallbackStep, h]
      rw [hstep, ih]
      have h0 : 5 - init.length = 0 := by omega
      simp [h0]

/-- Flushing the throttle after a nonempty call sequence always makes the
last delivery carry the last computed arguments. -/
theorem throttle_flush_delivers_last (calls : List (Nat × Nat)) :
    ∀ (s : ThrottleState), calls ≠ [] →
      ((runThrottle s calls).2 ++ (throttleFlushOut (runThrottle s calls).1).2).getLast?
        = calls.getLast? := by
  induction calls with
  | nil => intro s h; exact absurd rfl h
  | cons a rest ih =>
    intro s _
    cases rest with
    | nil =>
      by_cases hs : s.active <;>
        simp [runThrottle, throttleCall, throttleFlushOut, hs]
    | cons b rest2 =>
      have hne : (b :: rest2) ≠ ([] : List (Nat × Nat)) := by simp
      have hih := ih (throttleCall s a).1 hne
      calc ((runThrottle s (a :: b :: rest2)).2
              ++ (throttleFlushOut (runThrottle s (a :: b :: rest2)).1).2).getLast?
          = ((throttleCall s a).2
              ++ ((runThrottle (throttleCall s a).1 (b :: rest2)).2
                ++ (throttleFlushOut (runThrottle (throttleCall s a).1 (b :: rest2)).1).2)).getLast? := by
            simp [runThrottle]
        _ = ((runThrottle (throttleCall s a).1 (b :: rest2)).2
              ++ (throttleFlushOut (runThrottle (throttleCall s a).1 (b :: rest2)).1).2).getLast? := by
            apply List.getLast?_append_of_ne_nil
            intro hcontra
            rw [hcontra] at hih
            simp [List.getLast?] at hih
        _ = (b :: rest2).getLast? := hih
        _ = (a :: b :: rest2).getLast? := by simp [List.getLast?_cons_cons]

/-! ### Lemmas about the `fields` record built by `startImport` -/

theorem recordSet_of_not_mem (r : List (String × String)) (k v : String)
    (h : k ∉ r.map Prod.fst) : recordSet r k v = r ++ [(k, v)] := by
  have hany : r.any (fun q => q.1 == k) = false := by
    rw [List.any_eq_false]
    intro q hq
    simp only [beq_iff_eq]
    intro hk
    exact h (by rw [← hk]; exact List.mem_map_of_mem Prod.fst hq)
  simp [recordSet, hany]

theorem recordSet_keys (r : List (String × String)) (k0 v k : String)
    (h : k ∈ (recordSet r k0 v).map Prod.fst) : k ∈ r.map Prod.fst ∨ k = k0 := by
  unfold recordSet at h
  by_cases hc : r.any (fun q => q.1 == k0) = true
  · rw [if_pos hc, List.map_map] at h
    obtain ⟨q, hq, hqe⟩ := List.mem_map.mp h
    by_cases hqk : (q.1 == k0) = true
    · right
      simp only [Function.comp, hqk, if_pos] at hqe
      exact hqe.symm
    · left
      simp only [Function.comp, hqk] at hqe
      simp only [Bool.false_eq_true, if_false] at hqe
      rw [← hqe]
      exact List.mem_map_of_mem Prod.fst hq
  · rw [if_neg hc] at h
    rw [List.map_append, List.mem_append] at h
    rcases h with h | h
    · exact Or.inl h
    · simp at h
      exact Or.inr h

/-- Since the transform names are distinct, the JS record built at lines
233-239 is, as an ordered association list, exactly the transform entries
whose names are not excluded. -/
theorem buildFields_eq_filter_aux (ex : List String) (t : List (String × String)) :
    ∀ acc : List (String × String),
      (t.map Prod.fst).Nodup →
      (∀ k ∈ acc.map Prod.fst, k ∉ t.map Prod.fst) →
      t.foldl (fun r nt => if nt.1 ∈ ex then r else recordSet r nt.1 nt.2) acc
        = acc ++ t.filter (fun nt => decide (nt.1 ∉ ex)) := by
  induction t with
  | nil =>
    intro acc _ _
    simp
  | cons nt rest ih =>
    intro acc hnd hdisj
    rw [List.map_cons, List.nodup_cons] at hnd
    obtain ⟨hn_notin, hnd_rest⟩ := hnd
    rw [List.foldl_cons]
    by_cases hex : nt.1 ∈ ex
    · rw [if_pos hex, ih acc hnd_rest ?hd1, List.filter_cons]
      · simp [hex]
      case hd1 =>
        intro k hk
        have hko := hdisj k hk
        rw [List.map_cons] at hko
        intro hkr
        exact hko (List.mem_cons_of_mem _ hkr)
    · have hnacc : nt.1 ∉ acc.map Prod.fst := by
        intro hin
        have := hdisj nt.1 hin
        rw [List.map_cons] at this
        exact this (List.mem_cons_self _ _)
      rw [if_neg hex, recordSet_of_not_mem acc nt.1 nt.2 hnacc,
        ih (acc ++ [(nt.1, nt.2)]) hnd_rest ?hd2, List.filter_cons]
      · simp [hex, List.append_assoc]
      case hd2 =>
        intro k hk
        rw [List.map_append, List.mem_append] at hk
        rcases hk with hk | hk
        · have hko := hdisj k hk
          rw [List.map_cons] at hko
          intro hkr
          exact hko (List.mem_cons_of_mem _ hkr)
        · simp at hk
          rw [hk]
          exact hn_notin

theorem buildFields_keys_not_excluded_aux (ex : List String) (t : List (String × String)) :
    ∀ acc : List (String × String), (∀ k ∈ acc.map Prod.fst, k ∉ ex) →
      ∀ k ∈ (t.foldl (fun r nt => if nt.1 ∈ ex then r else recordSet r nt.1 nt.2) acc).map Prod.fst,
        k ∉ ex := by
  induction t with
  | nil =>
    intro acc hacc
    simpa using hacc
  | cons nt rest ih =>
    intro acc hacc
    rw [List.foldl_cons]
    by_cases hex : nt.1 ∈ ex
    · rw [if_pos hex]
      exact ih acc hacc
    · rw [if_neg hex]
      apply ih
      intro k hk
      rcases recordSet_keys acc nt.1 nt.2 k hk with h | h
      · exact hacc k h
      · rw [h]
        exact hex

/-- No excluded name ever appears among the keys of the built record. -/
theorem buildFields_keys_not_excluded (t : List (String × String)) (ex : List String) :
    ex.all (fun p => !(((buildFields t ex).map Prod.fst).contains p)) = true := by
  rw [List.all_eq_true]
  intro p hp
  have hkeys := buildFields_keys_not_excluded_aux ex t [] (by simp)
  rw [Bool.not_eq_true']
  by_contra hcont
  rw [Bool.not_eq_false] at hcont
  exact hkeys p (List.elem_iff.mp hcont) hp

/-- Per-field membership in the excluded-paths list, under path
uniqueness. -/
theorem mem_uncheckedPaths_iff (fields : List FieldFromCSV) (f : FieldFromCSV)
    (hnd : (fields.map (fun f => f.path)).Nodup) (hf : f ∈ fields) :
    f.path ∈ (fields.filter (fun f => !f.checked)).map (fun f => f.path)
      ↔ f.checked = false := by
  constructor
  · intro h
    obtain ⟨g, hg, hge⟩ := List.mem_map.mp h
    rw [List.mem_filter] at hg
    have : g = f := List.inj_on_of_nodup_map hnd hg.1 hf hge
    rw [← this]
    simpa using hg.2
  · intro h
    apply List.mem_map_of_mem
    rw [List.mem_filter]
    exact ⟨hf, by simp [h]⟩

/-- Filtering a pairs list built from all fields by "name not excluded"
keeps exactly the checked fields (the `TOGGLE_INCLUDE_FIELD` shape). -/
theorem filter_all_pairs_eq_checked (fields : List FieldFromCSV)
    (hnd : (fields.map (fun f => f.path)).Nodup) :
    (fields.map (fun f => (f.path, f.type))).filter
        (fun nt => decide (nt.1 ∉ (fields.filter (fun f => !f.checked)).map (fun f => f.path)))
      = checkedFieldPairs fields := by
  rw [List.filter_map]
  unfold checkedFieldPairs
  congr 1
  apply List.filter_congr
  intro f hf
  simp only [Function.comp]
  rcases hc : f.checked with _ | _
  · have := (mem_uncheckedPaths_iff fields f hnd hf).mpr hc
    simp [this]
  · have : f.path ∉ (fields.filter (fun f => !f.checked)).map (fun f => f.path) := by
      intro hmem
      rw [mem_uncheckedPaths_iff fields f hnd hf] at hmem
      rw [hc] at hmem
      cases hmem
    simp [this]

/-- Filtering the checked pairs by "name not excluded" keeps everything
(the `SET_FIELD_TYPE` shape). -/
theorem filter_checked_pairs_eq_checked (fields : List FieldFromCSV)
    (hnd : (fields.map (fun f => f.path)).Nodup) :
    (checkedFieldPairs fields).filter
        (fun nt => decide (nt.1 ∉ (fields.filter (fun f => !f.checked)).map (fun f => f.path)))
      = checkedFieldPairs fields := by
  unfold checkedFieldPairs
  rw [List.filter_map]
  congr 1
  apply List.filter_eq_self.mpr
  intro f hf
  rw [List.mem_filter] at hf
  simp only [Function.comp]
  have : f.path ∉ (fields.filter (fun f => !f.checked)).map (fun f => f.path) := by
    intro hmem
    rw [mem_uncheckedPaths_iff fields f hnd hf.1] at hmem
    rw [hmem] at hf
    simp at hf
  simp [this]

/-- Keys of the checked pairs are distinct when the field paths are. -/
theorem checkedFieldPairs_keys_nodup (fields : List FieldFromCSV)
    (hnd : (fields.map (fun f => f.path)).Nodup) :
    (((fields.filter (fun f => f.checked)).map (fun f => (f.path, f.type))).map Prod.fst).Nodup := by
  rw [List.map_map]
  have hsub : List.Sublist ((fields.filter (fun f => f.checked)).map (fun f => f.path))
      (fields.map (fun f => f.path)) :=
    (List.filter_sublist fields).map (fun f => f.path)
  have : (Prod.fst ∘ fun f => (f.path, f.type)) = fun (f : FieldFromCSV) => f.path := rfl
  rw [this]
  exact hnd.sublist hsub

/-- Keys of the all-fields pairs are distinct when the field paths are. -/
theorem allFieldPairs_keys_nodup (fields : List FieldFromCSV)
    (hnd : (fields.map (fun f => f.path)).Nodup) :
    ((fields.map (fun f => (f.path, f.type))).map Prod.fst).Nodup := by
  rw [List.map_map]
  have : (Prod.fst ∘ fun f => (f.path, f.type)) = fun (f : FieldFromCSV) => f.path := rfl
  rw [this]
  exact hnd

/-- Toggling or retyping a field keeps the path list unchanged. -/
theorem map_path_update (fields : List FieldFromCSV) (g : FieldFromCSV → FieldFromCSV)
    (hg : ∀ f, (g f).path = f.path) :
    ((fields.map g).map (fun f => f.path)) = fields.map (fun f => f.path) := by
  rw [List.map_map]
  apply List.map_congr_left
  intro f _
  exact hg f

/-- The store states reachable from the initial state through the preview
and field-option actions.  The `SET_PREVIEW` payloads carry the
distinct-path property: in the source they are built by
`loadCSVPreviewDocs`, whose grouping keeps one field per unique normalized
name (that construction's uniqueness is proved in the grouping section
below). -/
inductive ReachPreview : State → Prop where
  | init : ReachPreview INITIAL_STATE
  | preview (s : State) (fields : List FieldFromCSV) (values : List (List String))
      (hnd : (fields.map (fun f => f.path)).Nodup) (h : ReachPreview s) :
      ReachPreview (reducer s (.SET_PREVIEW fields values))
  | toggle (s : State) (p : String) (h : ReachPreview s) :
      ReachPreview (reducer s (.TOGGLE_INCLUDE_FIELD p))
  | setType (s : State) (p ty : String) (h : ReachPreview s) :
      ReachPreview (reducer s (.SET_FIELD_TYPE p ty))

theorem buildFields_toggle_shape (fields : List FieldFromCSV)
    (hnd : (fields.map (fun f => f.path)).Nodup) :
    buildFields (fields.map (fun f => (f.path, f.type)))
        ((fields.filter (fun f => !f.checked)).map (fun f => f.path))
      = checkedFieldPairs fields := by
  unfold buildFields
  rw [buildFields_eq_filter_aux _ _ [] (allFieldPairs_keys_nodup fields hnd) (by simp),
    List.nil_append]
  exact filter_all_pairs_eq_checked fields hnd

theorem buildFields_checked_shape (fields : List FieldFromCSV)
    (hnd : (fields.map (fun f => f.path)).Nodup) :
    buildFields ((fields.filter (fun f => f.checked)).map (fun f => (f.path, f.type)))
        ((fields.filter (fun f => !f.checked)).map (fun f => f.path))
      = checkedFieldPairs fields := by
  unfold buildFields
  rw [buildFields_eq_filter_aux _ _ [] (checkedFieldPairs_keys_nodup fields hnd) (by simp),
    List.nil_append]
  exact filter_checked_pairs_eq_checked fields hnd

theorem buildFields_preview_shape (fields : List FieldFromCSV)
    (hnd : (fields.map (fun f => f.path)).Nodup) :
    buildFields ((fields.filter (fun f => f.checked)).map (fun f => (f.path, f.type))) []
      = checkedFieldPairs fields := by
  unfold buildFields
  rw [buildFields_eq_filter_aux _ _ [] (checkedFieldPairs_keys_nodup fields hnd) (by simp)]
  simp [checkedFieldPairs]

/-- The reachability invariant: the built record equals the checked-field
projection, and field paths stay distinct. -/
theorem reachPreview_invariant (s : State) (h : ReachPreview s) :
    buildFields s.transform s.exclude = checkedFieldPairs s.fields
    ∧ (s.fields.map (fun f => f.path)).Nodup := by
  induction h with
  | init => exact ⟨rfl, List.nodup_nil⟩
  | preview s fields values hnd hr ih =>
    exact ⟨buildFields_preview_shape fields hnd, hnd⟩
  | toggle s p hr ih =>
    have hnd : (((s.fields.map (fun f =>
        if f.path = p then { f with checked := !f.checked } else f)).map
          (fun f => f.path)).Nodup) := by
      rw [map_path_update s.fields _ (fun f => by
        by_cases hc : f.path = p <;> simp [hc])]
      exact ih.2
    exact ⟨buildFields_toggle_shape _ hnd, hnd⟩
  | setType s p ty hr ih =>
    have hnd : (((s.fields.map (fun f =>
        if f.path = p then { f with checked := true, type := ty } else f)).map
          (fun f => f.path)).Nodup) := by
      rw [map_path_update s.fields _ (fun f => by
        by_cases hc : f.path = p <;> simp [hc])]
      exact ih.2
    exact ⟨buildFields_checked_shape _ hnd, hnd⟩

/-! ### Lemmas about the header normalizer -/

theorem afterDigits_cons (c : Char) (rest : List Char) :
    afterDigits (c :: rest)
      = if c = ']' then some rest
        else if c.isDigit then afterDigits rest else none := rfl

theorem matchIndex_cons (c : Char) (rest : List Char) :
    matchIndex (c :: rest) = if c.isDigit then afterDigits rest else none := rfl

theorem normStep_not_lbracket (c : Char) (acc : List Char) (h : ¬c = '[') :
    normStep c acc = c :: acc := by
  unfold normStep
  rw [if_neg h]

theorem normStep_lbracket_some (acc rem : List Char) (h : matchIndex acc = some rem) :
    normStep '[' acc = '[' :: ']' :: rem := by
  unfold normStep
  rw [if_pos rfl, h]

theorem normStep_lbracket_none (acc : List Char) (h : matchIndex acc = none) :
    normStep '[' acc = '[' :: acc := by
  unfold normStep
  rw [if_pos rfl, h]

theorem matchIndex_rbracket (rest : List Char) : matchIndex (']' :: rest) = none := by
  rw [matchIndex_cons, if_neg (by decide : ¬(']' : Char).isDigit = true)]

theorem matchIndex_lbracket (rest : List Char) : matchIndex ('[' :: rest) = none := by
  rw [matchIndex_cons, if_neg (by decide : ¬('[' : Char).isDigit = true)]

theorem afterDigits_drop (l : List Char) :
    ∀ r, afterDigits l = some r → ∃ k, r = l.drop k := by
  induction l with
  | nil => intro r h; cases h
  | cons c rest ih =>
    intro r h
    rw [afterDigits_cons] at h
    by_cases hc : c = ']'
    · rw [if_pos hc] at h
      exact ⟨1, by cases h; rfl⟩
    · rw [if_neg hc] at h
      by_cases hd : c.isDigit
      · rw [if_pos hd] at h
        obtain ⟨k, hk⟩ := ih r h
        exact ⟨k + 1, by simpa using hk⟩
      · rw [if_neg hd] at h
        cases h

theorem matchIndex_drop (l : List Char) (r : List Char)
    (h : matchIndex l = some r) : ∃ k, r = l.drop k := by
  cases l with
  | nil => cases h
  | cons c rest =>
    rw [matchIndex_cons] at h
    by_cases hd : c.isDigit
    · rw [if_pos hd] at h
      obtain ⟨k, hk⟩ := afterDigits_drop rest r h
      exact ⟨k + 1, by simpa using hk⟩
    · rw [if_neg hd] at h
      cases h

theorem normalizeChars_cons (c : Char) (t : List Char) :
    normalizeChars (c :: t) = normStep c (normalizeChars t) := rfl

theorem normalizeChars_fix_tail (c : Char) (t : List Char)
    (h : normalizeChars (c :: t) = c :: t) : normalizeChars t = t := by
  rw [normalizeChars_cons] at h
  by_cases hc : c = '['
  · subst hc
    cases hmi : matchIndex (normalizeChars t) with
    | none =>
      rw [normStep_lbracket_none _ hmi] at h
      injection h
    | some rem =>
      rw [normStep_lbracket_some _ rem hmi] at h
      injection h with _ h2
      have ht : t = ']' :: rem := h2.symm
      rw [ht, normalizeChars_cons,
        normStep_not_lbracket _ _ (by decide : ¬(']' : Char) = '['),
        matchIndex_rbracket] at hmi
      cases hmi
  · rw [normStep_not_lbracket c _ hc] at h
    injection h

theorem normalizeChars_fix_drop (k : Nat) :
    ∀ l : List Char, normalizeChars l = l → normalizeChars (l.drop k) = l.drop k := by
  induction k with
  | zero => intro l h; simpa using h
  | succ k ih =>
    intro l h
    cases l with
    | nil => simp [normalizeChars]
    | cons c t =>
      rw [List.drop_succ_cons]
      exact ih t (normalizeChars_fix_tail c t h)

theorem afterDigits_none_preserved (l : List Char)
    (h : afterDigits l = none) : afterDigits (normalizeChars l) = none := by
  induction l with
  | nil => simpa [normalizeChars] using h
  | cons c r ih =>
    rw [afterDigits_cons] at h
    by_cases hc : c = ']'
    · rw [if_pos hc] at h
      cases h
    · rw [if_neg hc] at h
      rw [normalizeChars_cons]
      by_cases hbr : c = '['
      · subst hbr
        cases hmi : matchIndex (normalizeChars r) with
        | some rem =>
          rw [normStep_lbracket_some _ rem hmi, afterDigits_cons,
            if_neg (by decide : ¬('[' : Char) = ']'),
            if_neg (by decide : ¬('[' : Char).isDigit = true)]
        | none =>
          rw [normStep_lbracket_none _ hmi, afterDigits_cons,
            if_neg (by decide : ¬('[' : Char) = ']'),
            if_neg (by decide : ¬('[' : Char).isDigit = true)]
      · rw [normStep_not_lbracket c _ hbr, afterDigits_cons, if_neg hc]
        by_cases hd : c.isDigit
        · rw [if_pos hd] at h ⊢
          exact ih h
        · rw [if_neg hd]

theorem matchIndex_none_preserved (l : List Char)
    (h : matchIndex l = none) : matchIndex (normalizeChars l) = none := by
  cases l with
  | nil => simpa [normalizeChars] using h
  | cons c r =>
    rw [matchIndex_cons] at h
    rw [normalizeChars_cons]
    by_cases hbr : c = '['
    · subst hbr
      cases hmi : matchIndex (normalizeChars r) with
      | some rem =>
        rw [normStep_lbracket_some _ rem hmi]
        exact matchIndex_lbracket _
      | none =>
        rw [normStep_lbracket_none _ hmi]
        exact matchIndex_lbracket _
    · rw [normStep_not_lbracket c _ hbr]
      by_cases hd : c.isDigit
      · rw [if_pos hd] at h
        rw [matchIndex_cons, if_pos hd]
        exact afterDigits_none_preserved r h
      · rw [matchIndex_cons, if_neg hd]

theorem normalizeChars_idem (l : List Char) :
    normalizeChars (normalizeChars l) = normalizeChars l := by
  induction l with
  | nil => rfl
  | cons c t ih =>
    rw [normalizeChars_cons]
    by_cases hc : c = '['
    · subst hc
      cases hmi : matchIndex (normalizeChars t) with
      | none =>
        rw [normStep_lbracket_none _ hmi, normalizeChars_cons, ih,
          normStep_lbracket_none _ hmi]
      | some rem =>
        have hrem : normalizeChars rem = rem := by
          obtain ⟨k, hk⟩ := matchIndex_drop _ rem hmi
          rw [hk]
          exact normalizeChars_fix_drop k _ ih
        rw [normStep_lbracket_some _ rem hmi, normalizeChars_cons,
          normalizeChars_cons, hrem,
          normStep_not_lbracket _ _ (by decide : ¬(']' : Char) = '['),
          normStep_lbracket_none _ (matchIndex_rbracket _)]
    · rw [normStep_not_lbracket c _ hc, normalizeChars_cons, ih,
        normStep_not_lbracket c _ hc]

/-- The modelled `csvHeaderNameToFieldName` is idempotent. -/
theorem csvHeaderNameToFieldName_idem (s : String) :
    csvHeaderNameToFieldName (csvHeaderNameToFieldName s) = csvHeaderNameToFieldName s := by
  unfold csvHeaderNameToFieldName
  exact congrArg String.mk (normalizeChars_idem s.data)

/-! ### Lemmas about the grouping pass -/

theorem mkField_path (n : String) : (mkField n).path = n := rfl

theorem any_key_iff (fm : List (String × List Nat)) (u : String) :
    fm.any (fun q => q.1 == u) = true ↔ u ∈ fm.map Prod.fst := by
  rw [List.any_eq_true]
  constructor
  · rintro ⟨q, hq, hbe⟩
    rw [beq_iff_eq] at hbe
    rw [← hbe]
    exact List.mem_map_of_mem Prod.fst hq
  · intro hm
    obtain ⟨q, hq, hqe⟩ := List.mem_map.mp hm
    exact ⟨q, hq, by rw [beq_iff_eq, hqe]⟩

theorem updateGroup_keys (fm : List (String × List Nat)) (u : String) (i : Nat) :
    (fm.map (fun q => if q.1 == u then (q.1, q.2 ++ [i]) else q)).map Prod.fst
      = fm.map Prod.fst := by
  rw [List.map_map]
  apply List.map_congr_left
  intro q _
  by_cases h : (q.1 == u) = true <;> simp [Function.comp, h]

theorem groupStep_mem (fm : List (String × List Nat)) (fl : List FieldFromCSV)
    (e : Nat × String)
    (h : fm.any (fun q => q.1 == csvHeaderNameToFieldName e.2) = true) :
    groupStep (fm, fl) e
      = (fm.map (fun q => if q.1 == csvHeaderNameToFieldName e.2
          then (q.1, q.2 ++ [e.1]) else q), fl) := by
  simp only [groupStep, h, if_true]

theorem groupStep_new (fm : List (String × List Nat)) (fl : List FieldFromCSV)
    (e : Nat × String)
    (h : fm.any (fun q => q.1 == csvHeaderNameToFieldName e.2) = false) :
    groupStep (fm, fl) e
      = (fm ++ [(csvHeaderNameToFieldName e.2, [e.1])],
         fl ++ [mkField (csvHeaderNameToFieldName e.2)]) := by
  simp only [groupStep, h, Bool.false_eq_true, if_false]

/-- The grouping fold: field paths follow the first-occurrence dedup of
the normalized names, every produced field is canonical (`mkField` of its
path), and the `fieldMap` keys track the field paths. -/
theorem groupStep_foldl_spec (entries : List (Nat × String)) :
    ∀ (fm : List (String × List Nat)) (fl : List FieldFromCSV),
      fm.map Prod.fst = fl.map (fun f => f.path) →
      (∀ f ∈ fl, f = mkField f.path) →
      ((entries.foldl groupStep (fm, fl)).2.map (fun f => f.path)
          = (entries.map (fun e => csvHeaderNameToFieldName e.2)).foldl dedupStep
              (fl.map (fun f => f.path))
        ∧ (∀ f ∈ (entries.foldl groupStep (fm, fl)).2, f = mkField f.path)
        ∧ (entries.foldl groupStep (fm, fl)).1.map Prod.fst
            = (entries.foldl groupStep (fm, fl)).2.map (fun f => f.path)) := by
  induction entries with
  | nil =>
    intro fm fl h1 h2
    exact ⟨rfl, h2, h1⟩
  | cons e rest ih =>
    intro fm fl h1 h2
    rw [List.foldl_cons, List.map_cons, List.foldl_cons]
    by_cases hmem : csvHeaderNameToFieldName e.2 ∈ fm.map Prod.fst
    · have hany : fm.any (fun q => q.1 == csvHeaderNameToFieldName e.2) = true :=
        (any_key_iff _ _).mpr hmem
      rw [groupStep_mem fm fl e hany]
      have hd : dedupStep (fl.map (fun f => f.path)) (csvHeaderNameToFieldName e.2)
          = fl.map (fun f => f.path) := by
        unfold dedupStep
        rw [if_pos (h1 ▸ hmem)]
      rw [hd]
      exact ih _ fl (by rw [updateGroup_keys, h1]) h2
    · have hany : fm.any (fun q => q.1 == csvHeaderNameToFieldName e.2) = false := by
        cases hb : fm.any (fun q => q.1 == csvHeaderNameToFieldName e.2) with
        | false => rfl
        | true => exact absurd ((any_key_iff _ _).mp hb) hmem
      rw [groupStep_new fm fl e hany]
      have hd : dedupStep (fl.map (fun f => f.path)) (csvHeaderNameToFieldName e.2)
          = fl.map (fun f => f.path) ++ [csvHeaderNameToFieldName e.2] := by
        unfold dedupStep
        rw [if_neg (h1 ▸ hmem)]
      rw [hd]
      have h1' : (fm ++ [(csvHeaderNameToFieldName e.2, [e.1])]).map Prod.fst
          = (fl ++ [mkField (csvHeaderNameToFieldName e.2)]).map (fun f => f.path) := by
        rw [List.map_append, List.map_append, h1]
        rfl
      have h2' : ∀ f ∈ fl ++ [mkField (csvHeaderNameToFieldName e.2)],
          f = mkField f.path := by
        intro f hf
        rcases List.mem_append.mp hf with hf | hf
        · exact h2 f hf
        · simp only [List.mem_singleton] at hf
          rw [hf]
          rfl
      have hrec := ih _ _ h1' h2'
      rw [show (fl ++ [mkField (csvHeaderNameToFieldName e.2)]).map (fun f => f.path)
          = fl.map (fun f => f.path) ++ [csvHeaderNameToFieldName e.2] from by
        rw [List.map_append]; rfl] at hrec
      exact hrec

theorem dedupStep_foldl_nodup (names : List String) :
    ∀ acc : List String, acc.Nodup → (names.foldl dedupStep acc).Nodup := by
  induction names with
  | nil => intro acc h; simpa using h
  | cons n rest ih =>
    intro acc h
    rw [List.foldl_cons]
    apply ih
    unfold dedupStep
    by_cases hm : n ∈ acc
    · rw [if_pos hm]
      exact h
    · rw [if_neg hm, ← List.concat_eq_append]
      exact h.concat hm

theorem mem_dedupStep_foldl (names : List String) :
    ∀ (acc : List String) (n : String),
      n ∈ names.foldl dedupStep acc ↔ n ∈ acc ∨ n ∈ names := by
  induction names with
  | nil =>
    intro acc n
    simp
  | cons m rest ih =>
    intro acc n
    rw [List.foldl_cons, ih]
    unfold dedupStep
    by_cases hm : m ∈ acc
    · rw [if_pos hm]
      constructor
      · rintro (h | h)
        · exact Or.inl h
        · exact Or.inr (List.mem_cons_of_mem _ h)
      · rintro (h | h)
        · exact Or.inl h
        · rcases List.mem_cons.mp h with h | h
          · exact Or.inl (h ▸ hm)
          · exact Or.inr h
    · rw [if_neg hm]
      simp only [List.mem_append, List.mem_singleton, List.mem_cons]
      tauto

theorem dedupStep_foldl_of_nodup (names : List String) :
    ∀ acc : List String, (∀ x ∈ names, x ∉ acc) → names.Nodup →
      names.foldl dedupStep acc = acc ++ names := by
  induction names with
  | nil =>
    intro acc _ _
    simp
  | cons n rest ih =>
    intro acc hdisj hnd
    rw [List.foldl_cons]
    have hstep : dedupStep acc n = acc ++ [n] := by
      unfold dedupStep
      rw [if_neg (hdisj n (List.mem_cons_self _ _))]
    rw [hstep, ih (acc ++ [n]) ?hdisj2 (List.nodup_cons.mp hnd).2]
    · simp
    case hdisj2 =>
      intro x hx
      rw [List.mem_append]
      rintro (h | h)
      · exact hdisj x (List.mem_cons_of_mem _ hx) h
      · simp only [List.mem_singleton] at h
        subst h
        exact (List.nodup_cons.mp hnd).1 hx

theorem enum_map_normalize (headers : List String) :
    headers.enum.map (fun e => csvHeaderNameToFieldName e.2)
      = headers.map csvHeaderNameToFieldName := by
  have h : headers.enum.map Prod.snd = headers := List.enumFrom_map_snd 0 headers
  calc headers.enum.map (fun e => csvHeaderNameToFieldName e.2)
      = (headers.enum.map Prod.snd).map csvHeaderNameToFieldName := by
        rw [List.map_map]
        rfl
    _ = headers.map csvHeaderNameToFieldName := by rw [h]

/-- The characterization of `loadCSVPreviewDocs`' grouping: the produced
field paths are the normalized header names, first occurrences in order,
and every field is canonical. -/
theorem groupFields_spec (headers : List String) :
    (groupFields headers).2.map (fun f => f.path)
        = firstOccurrences (headers.map csvHeaderNameToFieldName)
    ∧ ∀ f ∈ (groupFields headers).2, f = mkField f.path := by
  have h := groupStep_foldl_spec headers.enum [] []
    rfl (by intro f hf; cases hf)
  refine ⟨?_, h.2.1⟩
  rw [firstOccurrences, ← enum_map_normalize headers]
  exact h.1

theorem firstOccurrences_normalized_fixed (headers : List String) (n : String)
    (hm : n ∈ firstOccurrences (headers.map csvHeaderNameToFieldName)) :
    csvHeaderNameToFieldName n = n := by
  rw [firstOccurrences] at hm
  rcases (mem_dedupStep_foldl _ [] n).mp hm with h | h
  · cases h
  · obtain ⟨x, _, hxe⟩ := List.mem_map.mp h
    rw [← hxe]
    exact csvHeaderNameToFieldName_idem x

theorem fields_eq_map_mkField (fl : List FieldFromCSV)
    (h : ∀ f ∈ fl, f = mkField f.path) :
    fl = (fl.map (fun f => f.path)).map mkField := by
  rw [List.map_map]
  conv_lhs => rw [show fl = fl.map id from (List.map_id fl).symm]
  apply List.map_congr_left
  intro f hf
  exact h f hf

/-- Grouping the (already normalized, distinct) produced field names again
yields the same field list. -/
theorem groupFields_idem (headers : List String) :
    (groupFields ((groupFields headers).2.map (fun f => f.path))).2
      = (groupFields headers).2 := by
  have h1 := groupFields_spec headers
  have h2 := groupFields_spec ((groupFields headers).2.map (fun f => f.path))
  have hfix : ((groupFields headers).2.map (fun f => f.path)).map csvHeaderNameToFieldName
      = (groupFields headers).2.map (fun f => f.path) := by
    conv_rhs => rw [show (groupFields headers).2.map (fun f => f.path)
        = ((groupFields headers).2.map (fun f => f.path)).map id
      from (List.map_id _).symm]
    apply List.map_congr_left
    intro n hn
    apply firstOccurrences_normalized_fixed headers n
    rw [← h1.1]
    exact hn
  have hnd : ((groupFields headers).2.map (fun f => f.path)).Nodup := by
    rw [h1.1, firstOccurrences]
    exact dedupStep_foldl_nodup _ [] List.nodup_nil
  have hPaths : (groupFields ((groupFields headers).2.map (fun f => f.path))).2.map
        (fun f => f.path)
      = (groupFields headers).2.map (fun f => f.path) := by
    rw [h2.1, hfix, firstOccurrences,
      dedupStep_foldl_of_nodup _ [] (by simp) hnd, List.nil_append]
  calc (groupFields ((groupFields headers).2.map (fun f => f.path))).2
      = ((groupFields ((groupFields headers).2.map (fun f => f.path))).2.map
          (fun f => f.path)).map mkField := fields_eq_map_mkField _ h2.2
    _ = ((groupFields headers).2.map (fun f => f.path)).map mkField := by rw [hPaths]
    _ = (groupFields headers).2 := (fields_eq_map_mkField _ h1.2).symm

/-! ## Claims -/

/-- C1: for every session state and every `FINISHED` action, the reducer
sets `status` to `CANCELED` when `aborted` is true and to `COMPLETED` when
it is false, clearing the abort controller in both cases; cancelling
mid-run resolves the import promise with `aborted = true` (spec-modelled:
the importers never throw on cancellation), so the terminal trace
dispatches `FINISHED` with `aborted = true` - yielding status `CANCELED`,
never `COMPLETED` - and contains no failure dispatch. -/
theorem finished_action_sets_terminal_status (s : State) (aborted : Bool)
    (errs : List Err) (dw dp : Nat) (sameDS : Bool) :
    (reducer s (.FINISHED aborted errs)).status
        = (if aborted then ProcessStatus.CANCELED else ProcessStatus.COMPLETED)
    ∧ (reducer s (.FINISHED aborted errs)).abortController = none
    ∧ (reducer s (.FINISHED true errs)).status = ProcessStatus.CANCELED
    ∧ Event.dispatchFinished true errs
        ∈ startImportTerminal (cancelledImportOutcome dw dp) errs sameDS
    ∧ containsFailureDispatch
        (startImportTerminal (cancelledImportOutcome dw dp) errs sameDS) = false := by
  refine ⟨rfl, rfl, rfl, ?_, ?_⟩ <;>
    cases sameDS <;>
      simp [startImportTerminal, cancelledImportOutcome, containsFailureDispatch]

/-- C2 counterexample: when creating the import error-log file fails, the
claim says `importCSV`/`importJSON` are never invoked - but the source
catches the error, records it, and proceeds to invoke the importer. -/
theorem error_log_setup_failure_still_imports_cx :
    (startImportSetup (Except.error ⟨"EACCES: permission denied"⟩)).importerInvoked = true
    ∧ (startImportSetup (Except.error ⟨"EACCES: permission denied"⟩)).errors
        = [⟨"unable to create import error log file: EACCES: permission denied"⟩]
    ∧ (startImportSetup (Except.error ⟨"EACCES: permission denied"⟩)).hasErrorLogStream
        = false := by
  refine ⟨rfl, by decide, rfl⟩

/-- C2 amended: if creating the import error-log file fails during
`startImport` setup, the error is caught, its message is prefixed with
"unable to create import error log file: ", it is pushed onto the run's
in-memory error list, the error-log write stream is left unset and the
dispatched `errorLogFilePath` is empty - and the run proceeds:
`importCSV`/`importJSON` is still invoked (with no error-log output); the
run is not aborted by this setup error. -/
theorem error_log_setup_failure_behavior (e : Err) (p : String) :
    (startImportSetup (.error e)).importerInvoked = true
    ∧ (startImportSetup (.error e)).errors
        = [⟨"unable to create import error log file: " ++ e.message⟩]
    ∧ (startImportSetup (.error e)).hasErrorLogStream = false
    ∧ (startImportSetup (.error e)).errorLogFilePath = ""
    ∧ (startImportSetup (.ok p)).importerInvoked = true :=
  ⟨rfl, rfl, rfl, rfl, rfl⟩

/-- C5 counterexample: a terminal status does regress - applying `OPEN`
(or `FILE_SELECTED`) to a state whose status is the terminal `COMPLETED`
resets the status to the non-terminal `UNSPECIFIED`. -/
theorem terminal_status_regression_cx :
    ({ INITIAL_STATE with status := .COMPLETED } : State).status.isTerminal = true
    ∧ (reducer { INITIAL_STATE with status := .COMPLETED } .OPEN).status
        = ProcessStatus.UNSPECIFIED
    ∧ (reducer { INITIAL_STATE with status := .COMPLETED }
        (.FILE_SELECTED (some ",") "f.csv" "csv" (some 10) false)).status
        = ProcessStatus.UNSPECIFIED
    ∧ ProcessStatus.UNSPECIFIED.isTerminal = false :=
  ⟨rfl, rfl, rfl, rfl⟩

/-- C5 amended: once the status is terminal, every reducer action other
than the status-writing lifecycle actions - `FILE_SELECTED` and `OPEN`
(which reset the session), `STARTED` (which begins a new run), and
`FAILED`/`FINISHED` (which set a possibly different terminal status) -
leaves the status unchanged; `FAILED` and `FINISHED` always land on a
terminal status again. -/
theorem terminal_status_stable_outside_lifecycle (s : State) (a : Action)
    (e : Err) (ab : Bool) (er : List Err)
    (hterm : s.status.isTerminal = true) (ha : a.writesStatus = false) :
    (reducer s a).status = s.status
    ∧ (reducer s (.FAILED e)).status.isTerminal = true
    ∧ (reducer s (.FINISHED ab er)).status.isTerminal = true := by
  refine ⟨?_, rfl, by cases ab <;> rfl⟩
  cases a <;> first
    | rfl
    | simp [Action.writesStatus] at ha

/-- C5 witness: a failed session state and the `CLOSE` action. -/
theorem terminal_status_stable_outside_lifecycle_witness :
    (({ INITIAL_STATE with status := .FAILED } : State).status.isTerminal = true
    ∧ Action.writesStatus .CLOSE = false
    ∧ ((reducer { INITIAL_STATE with status := .FAILED } .CLOSE).status
          = ({ INITIAL_STATE with status := .FAILED } : State).status
      ∧ (reducer { INITIAL_STATE with status := .FAILED }
          (.FAILED ⟨"boom"⟩)).status.isTerminal = true
      ∧ (reducer { INITIAL_STATE with status := .FAILED }
          (.FINISHED true [])).status.isTerminal = true)) :=
  ⟨rfl, rfl,
    terminal_status_stable_outside_lifecycle
      { INITIAL_STATE with status := .FAILED } .CLOSE ⟨"boom"⟩ true []
      (by decide) (by decide)⟩

/-- C6: the `DATA_SERVICE_DISCONNECTED` case aborts exactly the abort
controllers present in the state (the import controller and the analyzer
controller, in that order), clears both handles, and closes the modal. -/
theorem disconnect_aborts_and_clears_controllers (s : State) :
    reducerEffects s .DATA_SERVICE_DISCONNECTED
        = (s.abortController.toList ++ s.analyzeAbortController.toList).map Effect.abortCtl
    ∧ (reducer s .DATA_SERVICE_DISCONNECTED).abortController = none
    ∧ (reducer s .DATA_SERVICE_DISCONNECTED).analyzeAbortController = none
    ∧ (reducer s .DATA_SERVICE_DISCONNECTED).isOpen = false := by
  refine ⟨?_, rfl, rfl, rfl⟩
  simp [reducerEffects]

/-- C9: an incoming error is appended iff fewer than 5 are stored, so the
in-memory list holds the first 5 errors in arrival order, its length never
exceeds the larger of its initial length and 5, and (spec-modelled, since
the log writing is not under `src/`) every error is still recorded
in the error log. -/
theorem error_list_head_bounded (init es : List Err) (e : Err) :
    (errorCallbackStep init e = init ++ [e] ↔ init.length < 5)
    ∧ runErrorCallbacks [] es = es.take 5
    ∧ (runErrorCallbacks init es).length ≤ max init.length 5
    ∧ es.all (fun x => decide (x ∈ importErrorLog es)) = true := by
  refine ⟨?_, ?_, ?_, ?_⟩
  · constructor
    · intro hstep
      by_contra hlt
      simp only [errorCallbackStep, if_neg hlt] at hstep
      have := congrArg List.length hstep
      simp at this
    · intro hlt
      simp [errorCallbackStep, hlt]
  · simpa using runErrorCallbacks_eq es []
  · rw [runErrorCallbacks_eq]
    have hm : min (5 - init.length) es.length ≤ 5 - init.length := Nat.min_le_left _ _
    simp only [List.length_append, List.length_take]
    omega
  · simp [importErrorLog, List.all_eq_true]

/-- C10: `startImport` forces the effective ignore-blanks value to `false`
for every non-CSV file type, and the `importJSON` invocation takes no
ignore-blank parameter at all - it is independent of the user's
`ignoreBlanks` setting. -/
theorem ignore_blanks_csv_only (cfg : StartImportConfig) (b : Bool)
    (h : cfg.fileType ≠ "csv") :
    effectiveIgnoreBlanks cfg.ignoreBlanks cfg.fileType = false
    ∧ importInvocation { cfg with ignoreBlanks := b } = importInvocation cfg
    ∧ importInvocation cfg
        = Sum.inr { stopOnErrors := cfg.stopOnErrors,
                    jsonVariant := if cfg.fileIsMultilineJSON then "jsonl" else "json" } := by
  have hb : (cfg.fileType == "csv") = false := by
    simp only [beq_eq_false_iff_ne, ne_eq]
    exact h
  refine ⟨?_, ?_, ?_⟩
  · simp [effectiveIgnoreBlanks, FILE_TYPES_CSV, hb]
  · simp [importInvocation, hb]
  · simp [importInvocation, hb]

/-- C7 counterexample: on the failure (promise-rejection) path of
`startImport`, the throttle is not flushed, and without a flush a pending
trailing progress update is dropped - the last delivered value is not the
last computed one. -/
theorem final_progress_flush_missing_on_failure_cx :
    containsFlush (startImportTerminal (.failure ⟨"E11000 duplicate key"⟩) [] true) = false
    ∧ (runThrottle throttleInit [(1, 100), (2, 200)]).2 = [(1, 100)] :=
  ⟨rfl, rfl⟩

/-- C7 amended: `startImport` flushes the throttled progress callback on
the promise-resolution path (success or cancellation) - the flush is the
first terminal step there, so the last computed progress values are always
delivered on that path; the rejection (failure) path performs no flush and
may drop a pending final update. -/
theorem final_progress_flush_on_resolution (r : ImportResult) (errs : List Err)
    (sameDS : Bool) (calls : List (Nat × Nat)) (h : 0 < calls.length) :
    (startImportTerminal (.success r) errs sameDS).head? = some Event.flushProgress
    ∧ containsFlush (startImportTerminal (.success r) errs sameDS) = true
    ∧ (deliveredWithFlush calls).getLast? = calls.getLast? := by
  refine ⟨?_, ?_, ?_⟩
  · simp [startImportTerminal]
  · simp [startImportTerminal, containsFlush]
  · have hne : calls ≠ [] := by
      intro hc
      rw [hc] at h
      simp at h
    exact throttle_flush_delivers_last calls throttleInit hne

/-- C7 witness: a completed run with one progress call. -/
theorem final_progress_flush_on_resolution_witness :
    (0 < [((3 : Nat), (300 : Nat))].length
    ∧ ((startImportTerminal (.success ⟨false, 5, 5⟩) [] true).head?
          = some Event.flushProgress
      ∧ containsFlush (startImportTerminal (.success ⟨false, 5, 5⟩) [] true) = true
      ∧ (deliveredWithFlush [(3, 300)]).getLast?
          = [((3 : Nat), (300 : Nat))].getLast?)) :=
  ⟨by decide,
    final_progress_flush_on_resolution ⟨false, 5, 5⟩ [] true [(3, 300)] (by decide)⟩

/-- C3: for every store state reachable through `SET_PREVIEW`,
`TOGGLE_INCLUDE_FIELD` and `SET_FIELD_TYPE` actions, the `fields` record
`startImport` builds from `(transform, exclude)` contains exactly the
checked CSV fields mapped to their current types (in order), and - for
any transform/exclude pair at all - no excluded path ever appears among
the record's keys. -/
theorem import_fields_restricted_to_included (s : State)
    (t : List (String × String)) (ex : List String) (h : ReachPreview s) :
    buildFields s.transform s.exclude = checkedFieldPairs s.fields
    ∧ ex.all (fun p => !(((buildFields t ex).map Prod.fst).contains p)) = true :=
  ⟨(reachPreview_invariant s h).1, buildFields_keys_not_excluded t ex⟩

/-- Two preview fields, as `loadTypes` would deliver them. -/
def previewFields : List FieldFromCSV :=
  [{ isArray := false, path := "a", checked := true, type := "string", result := none },
   { isArray := true, path := "b[]", checked := true, type := "int", result := none }]

/-- A concrete reachable state: preview loaded, then field `a`
unchecked. -/
def previewToggledState : State :=
  reducer (reducer INITIAL_STATE (.SET_PREVIEW previewFields []))
    (.TOGGLE_INCLUDE_FIELD "a")

/-- C3 witness: in the concrete state, the built record holds only the
still-checked `b[]` field. -/
theorem import_fields_restricted_to_included_witness :
    buildFields previewToggledState.transform previewToggledState.exclude
        = checkedFieldPairs previewToggledState.fields
    ∧ ["a"].all (fun p =>
        !(((buildFields [("a", "string"), ("b[]", "int")] ["a"]).map Prod.fst).contains p))
      = true :=
  import_fields_restricted_to_included previewToggledState
    [("a", "string"), ("b[]", "int")] ["a"]
    (ReachPreview.toggle _ "a"
      (ReachPreview.preview INITIAL_STATE previewFields [] (by decide) ReachPreview.init))

/-- C4: single-flight analyzer discipline of `loadTypes`.  With a prior
`analyzeCSVFields` run in flight (`analyzeAbortController = some id`), the
opening trace of `loadTypes` aborts that one controller (twice - both
`abort()` calls target the same controller, so exactly one prior run is
cancelled), dispatches the `ANALYZE_CANCELLED` acknowledgment, and only
after it dispatches `ANALYZE_STARTED` with the fresh controller; applying
the dispatched actions leaves the fresh controller installed.  With no
prior run the trace contains no cancellation. -/
theorem analyze_cancel_before_restart (s : State) (id fresh total : Nat)
    (hctl : s.analyzeAbortController = some id) :
    loadTypesStartTrace s.analyzeAbortController fresh
        = [.abortCtl id, .abortCtl id, .dispatchCancelled, .dispatchStarted fresh]
    ∧ (loadTypesStartTrace s.analyzeAbortController fresh).all
        (fun ev => match ev with | .abortCtl i => i == id | _ => true) = true
    ∧ (loadTypesStartTrace s.analyzeAbortController fresh).countP
        (fun ev => decide (ev = AnalyzeEvent.dispatchCancelled)) = 1
    ∧ loadTypesStartTrace none fresh = [.dispatchStarted fresh]
    ∧ (applyActions s
        (loadTypesDispatches s.analyzeAbortController fresh total)).analyzeAbortController
        = some fresh
    ∧ (reducer s .ANALYZE_CANCELLED).analyzeAbortController = none := by
  rw [hctl]
  refine ⟨rfl, ?_, ?_, rfl, rfl, rfl⟩
  · simp [loadTypesStartTrace]
  · simp [loadTypesStartTrace, List.countP_cons]

/-- A state with an analyzer run in flight (controller handle 7). -/
def analyzingState : State := { INITIAL_STATE with analyzeAbortController := some 7 }

/-- C4 witness: prior controller 7, fresh controller 8. -/
theorem analyze_cancel_before_restart_witness :
    (analyzingState.analyzeAbortController = some 7
    ∧ (loadTypesStartTrace analyzingState.analyzeAbortController 8
          = [.abortCtl 7, .abortCtl 7, .dispatchCancelled, .dispatchStarted 8]
      ∧ (loadTypesStartTrace analyzingState.analyzeAbortController 8).all
          (fun ev => match ev with | .abortCtl i => i == 7 | _ => true) = true
      ∧ (loadTypesStartTrace analyzingState.analyzeAbortController 8).countP
          (fun ev => decide (ev = AnalyzeEvent.dispatchCancelled)) = 1
      ∧ loadTypesStartTrace none 8 = [.dispatchStarted 8]
      ∧ (applyActions analyzingState
          (loadTypesDispatches analyzingState.analyzeAbortController 8 100)).analyzeAbortController
          = some 8
      ∧ (reducer analyzingState .ANALYZE_CANCELLED).analyzeAbortController = none)) :=
  ⟨rfl, analyze_cancel_before_restart analyzingState 7 8 100 rfl⟩

/-- C8: CSV preview grouping.  For every header list: normalized-identical
columns merge into exactly one field (field paths are distinct and cover
exactly the normalized header names); a field's `isArray` flag is set iff
its normalized name ends with the array marker (and it starts checked with
type "mixed"); re-grouping the produced field names yields the identical
field set.  For row transformation: a preview row always yields one cell
per field (no row failure), and on the spec's example the merged group's
cell is built from the non-empty cells only, rendered as a JSON array for
`tags[]` and comma-joined for dotted sub-fields of an array.
(`csvHeaderNameToFieldName` is spec-modelled: its code is not under
`src/`.) -/
theorem csv_grouping_properties (headers : List String)
    (fm : List (String × List Nat)) (fl : List FieldFromCSV) (row : List String) :
    ((groupFields headers).2.map (fun f => f.path)).Nodup
    ∧ headers.all (fun h =>
        decide (csvHeaderNameToFieldName h
          ∈ (groupFields headers).2.map (fun f => f.path))) = true
    ∧ (groupFields headers).2.all (fun f =>
        decide (f.path ∈ headers.map csvHeaderNameToFieldName)
          && (f.isArray == endsWithArrayMarker f.path)
          && f.checked && (f.type == "mixed")) = true
    ∧ (groupFields ((groupFields headers).2.map (fun f => f.path))).2
        = (groupFields headers).2
    ∧ (transformRow fm fl row).length = fl.length
    ∧ (groupFields ["tags[0]", "tags[1]", "tags[2]"]).2
        = [{ isArray := true, path := "tags[]", checked := true,
             type := "mixed", result := none }]
    ∧ transformRow (groupFields ["tags[0]", "tags[1]", "tags[2]"]).1
        (groupFields ["tags[0]", "tags[1]", "tags[2]"]).2 ["a", "b", "c"]
        = ["[\n  \"a\",\n  \"b\",\n  \"c\"\n]"]
    ∧ transformRow (groupFields ["tags[0]", "tags[1]", "tags[2]"]).1
        (groupFields ["tags[0]", "tags[1]", "tags[2]"]).2 ["a", "", "c"]
        = ["[\n  \"a\",\n  \"c\"\n]"]
    ∧ transformRow (groupFields ["x[0].name", "x[1].name"]).1
        (groupFields ["x[0].name", "x[1].name"]).2 ["p", "q"] = ["p, q"] := by
  refine ⟨?_, ?_, ?_, groupFields_idem headers, List.length_map _ _,
    by decide, by decide, by decide, by decide⟩
  · rw [(groupFields_spec headers).1, firstOccurrences]
    exact dedupStep_foldl_nodup _ [] List.nodup_nil
  · rw [List.all_eq_true]
    intro h hh
    simp only [decide_eq_true_eq]
    rw [(groupFields_spec headers).1, firstOccurrences]
    exact (mem_dedupStep_foldl _ [] _).mpr (Or.inr (List.mem_map_of_mem _ hh))
  · rw [List.all_eq_true]
    intro f hf
    have hcan := (groupFields_spec headers).2 f hf
    have hmem : f.path ∈ headers.map csvHeaderNameToFieldName := by
      have hp : f.path ∈ (groupFields headers).2.map (fun f => f.path) :=
        List.mem_map_of_mem _ hf
      rw [(groupFields_spec headers).1, firstOccurrences] at hp
      rcases (mem_dedupStep_foldl _ [] _).mp hp with h | h
      · cases h
      · exact h
    have h1 : f.isArray = endsWithArrayMarker f.path := by
      conv_lhs => rw [hcan]
      rfl
    have h2 : f.checked = true := by
      conv_lhs => rw [hcan]
      rfl
    have h3 : f.type = "mixed" := by
      conv_lhs => rw [hcan]
      rfl
    simp [hmem, h1, h2, h3]

/-- A concrete JSONL import configuration (only the ignore-blanks flag
varies). -/
def jsonlConfig (ib : Bool) : StartImportConfig :=
  { fileName := "d.json", fileType := "json", fileIsMultilineJSON := true,
    delimiter := none, ignoreBlanks := ib, stopOnErrors := false,
    exclude := [], transform := [] }

/-- C10 witness: a JSONL config. -/
theorem ignore_blanks_csv_only_witness :
    (effectiveIgnoreBlanks true "json" = false
    ∧ importInvocation (jsonlConfig false) = importInvocation (jsonlConfig true)
    ∧ importInvocation (jsonlConfig true)
        = Sum.inr { stopOnErrors := false, jsonVariant := "jsonl" }) := by
  have h := ignore_blanks_csv_only (jsonlConfig true) false (by decide)
  refine ⟨h.1, ?_, ?_⟩
  · exact h.2.1
  · have h3 := h.2.2
    simpa [jsonlConfig] using h3

end CompassImport
